import Mathlib

/-!
Verification development for the HeatMapHero spatial interpolation engine.

The Python source is shallowly embedded: machine floats are modelled by
exact rationals, numpy arrays by lists, and matplotlib side effects by an
explicit `Scene` value describing what the engine asks the drawing
collaborator to render.  External libraries (scipy's `griddata`) appear as
oracle parameters, so theorems quantify over every possible behaviour of
the external call.
-/

namespace HeatMapHero

/-- A sample is one `(x, y, value)` measurement, as zipped from the three
parallel numpy arrays `x_coords`, `y_coords`, `values`. -/
abbrev Sample := ℚ × ℚ × ℚ

namespace Config

/-- Embeds `Config.INTERPOLATION_METHODS` from `src/core/config.py`. -/
def INTERPOLATION_METHODS : List String := ["cubic", "linear", "nearest"]

/-- Embeds `Config.INTERPOLATION_GRID_SIZE` from `src/core/config.py`. -/
def INTERPOLATION_GRID_SIZE : ℕ := 100

/-- Embeds `Config.INTERPOLATION_PADDING` from `src/core/config.py`. -/
def INTERPOLATION_PADDING : ℚ := 2 / 10

/-- Embeds `Config.MAX_POINTS_FOR_LABELS` from `src/core/config.py`. -/
def MAX_POINTS_FOR_LABELS : ℕ := 10

/-- Embeds `Config.HEATMAP_TYPES` from `src/core/config.py`: display name to
internal metric key, in insertion order. -/
def HEATMAP_TYPES : List (String × String) :=
  [("RSSI (Signal Strength)", "rssi"),
   ("Average Latency", "latency"),
   ("TCP Throughput", "tcp_throughput"),
   ("UDP Throughput", "udp_throughput"),
   ("Packet Loss", "packet_loss"),
   ("Jitter", "jitter")]

end Config

/-- Round a rational to the nearest integer, ties to even: the rounding of
Python's builtin `round` (applied in the source to binary floats; here to
the exact rational value). -/
def rndHalfEven (q : ℚ) : ℤ :=
  let f := ⌊q⌋
  let r := q - f
  if r < 1 / 2 then f
  else if 1 / 2 < r then f + 1
  else if f % 2 = 0 then f else f + 1

/-- Embeds `round(x, 6)` as used in `_remove_duplicates` ("Round to avoid floating
point issues"). -/
def round6 (q : ℚ) : ℚ := (rndHalfEven (q * 1000000) : ℚ) / 1000000

/-- The `coord_key = (round(x, 6), round(y, 6))` of `_remove_duplicates`. -/
def sampleKey (s : Sample) : ℚ × ℚ := (round6 s.1, round6 s.2.1)

/-- Replace the element at a position, leaving the list unchanged when the
index is out of range: the Python assignment `filtered_values[idx] = ...`. -/
def listModify (f : α → α) : ℕ → List α → List α
  | _, [] => []
  | 0, a :: l => f a :: l
  | n + 1, a :: l => a :: listModify f n l

/-- Index of the first occurrence of `k`: the Python
`list(unique_coords.keys()).index(coord_key)` (length if absent). -/
def idxOf (k : ℚ × ℚ) : List (ℚ × ℚ) → ℕ
  | [] => 0
  | k' :: rest => if k' = k then 0 else idxOf k rest + 1

/-- Embeds `zip(x_coords, y_coords, values)`: truncating three-way zip. -/
def zip3 : List ℚ → List ℚ → List ℚ → List Sample
  | x :: xs, y :: ys, v :: vs => (x, y, v) :: zip3 xs ys vs
  | _, _, _ => []

/-- The loop body of `HeatMapGenerator._remove_duplicates`
(`src/core/heatmap_generator.py:155-165`): `keys` is the insertion-ordered
key list of the `unique_coords` dict, `acc` the three parallel `filtered_*`
lists held as one list of triples (they are appended to in lockstep and
only the value component is ever updated). -/
def dedupLoop : List (ℚ × ℚ) → List Sample → List Sample → List Sample
  | _, acc, [] => acc
  | keys, acc, s :: rest =>
    if sampleKey s ∈ keys then
      dedupLoop keys
        (listModify (fun t => (t.1, t.2.1, (t.2.2 + s.2.2) / 2))
          (idxOf (sampleKey s) keys) acc) rest
    else
      dedupLoop (keys ++ [sampleKey s]) (acc ++ [s]) rest

/-- Embeds `HeatMapGenerator._remove_duplicates`: returns the three filtered
parallel sequences. -/
def removeDuplicates (xs ys vs : List ℚ) : List ℚ × List ℚ × List ℚ :=
  let out := dedupLoop [] [] (zip3 xs ys vs)
  (out.map (fun s => s.1), out.map (fun s => s.2.1), out.map (fun s => s.2.2))

/-- One dedup step, stated the way the specification reads: a mapping from
rounded-coordinate key to representative entry in first-seen order; a first
occurrence is inserted, a repeat occurrence replaces the stored value by
the pairwise mean of stored and new value. -/
def dedupStep (acc : List Sample) (s : Sample) : List Sample :=
  if sampleKey s ∈ acc.map sampleKey then
    acc.map (fun t =>
      if sampleKey t = sampleKey s then (t.1, t.2.1, (t.2.2 + s.2.2) / 2) else t)
  else acc ++ [s]

/-- Specification-side deduplication: fold `dedupStep` over the samples. -/
def dedupSpec (samples : List Sample) : List Sample := samples.foldl dedupStep []

/-- The three parallel sequences extracted from `dedupSpec`. -/
def dedupTriple (samples : List Sample) : List ℚ × List ℚ × List ℚ :=
  ((dedupSpec samples).map (fun s => s.1),
   (dedupSpec samples).map (fun s => s.2.1),
   (dedupSpec samples).map (fun s => s.2.2))

/-- Minimum of a list of rationals (`np.ndarray.min`; the source only calls
it on non-empty data, the `[]` case is an arbitrary default). -/
def listMin : List ℚ → ℚ
  | [] => 0
  | h :: t => t.foldl min h

/-- Maximum of a list of rationals (`np.ndarray.max`). -/
def listMax : List ℚ → ℚ
  | [] => 0
  | h :: t => t.foldl max h

/-- The data-extent bounds computation of the legacy engine
(`src/hmh.py:369-380`): min/max of the coordinates, padded by
`padding = 0.2` times the coordinate range floored at 1. -/
def dataExtentBounds (xs ys : List ℚ) : ℚ × ℚ × ℚ × ℚ :=
  let xMin := listMin xs
  let xMax := listMax xs
  let yMin := listMin ys
  let yMax := listMax ys
  let xRange := max (xMax - xMin) 1
  let yRange := max (yMax - yMin) 1
  let padding : ℚ := 2 / 10
  (xMin - xRange * padding, xMax + xRange * padding,
   yMin - yRange * padding, yMax + yRange * padding)

/-- Embeds `HeatMapGenerator._calculate_bounds`
(`src/core/heatmap_generator.py:169-175`): always returns the full fixed
axis range `[0, 200] x [0, 100]`, ignoring the data points. -/
def calculateBounds (_xs _ys : List ℚ) : ℚ × ℚ × ℚ × ℚ := (0, 200, 0, 100)

/-- Embeds `np.mgrid[a:b:n*1j]`: `n` evenly spaced points from `a` to `b`,
both endpoints included (`[a]` for `n = 1`, empty for `n = 0`). -/
def linspace (a b : ℚ) : ℕ → List ℚ
  | 0 => []
  | 1 => [a]
  | n + 2 => (List.range (n + 2)).map (fun i => a + i * (b - a) / (n + 1))

/-- The flattened `n x n` lattice `grid_x, grid_y = np.mgrid[...]`,
enumerated in the `(i, j)` loop order of `_create_simple_interpolation`. -/
def latticePoints (xMin xMax yMin yMax : ℚ) (n : ℕ) : List (ℚ × ℚ) :=
  (linspace xMin xMax n).flatMap (fun gx => (linspace yMin yMax n).map (fun gy => (gx, gy)))

/-- The clamped squared distance from grid point `p` to sample `s`.  The
source computes `d = sqrt(dx^2 + dy^2)`, clamps `d = max(d, 1e-10)` and
only ever uses `1 / d^2`; since `max(sqrt t, e)^2 = max(t, e^2)` for
`t >= 0`, the embedding tracks the squared clamped distance exactly,
staying inside the rationals (the decimal literal `1e-10` is modelled by
the exact rational `1/10^10`). -/
def clampedDistSq (p : ℚ × ℚ) (s : Sample) : ℚ :=
  max ((p.1 - s.1) ^ 2 + (p.2 - s.2.1) ^ 2) ((1 / 10 ^ 10) ^ 2)

/-- One cell of `HeatMapGenerator._create_simple_interpolation`
(`src/core/heatmap_generator.py:211-221`): inverse-distance-squared
weighted average `sum(weights * values) / sum(weights)`.  numpy's `0/0`
produces NaN, modelled as `none`; every other cell is `some`. -/
def idwCell (samples : List Sample) (p : ℚ × ℚ) : Option ℚ :=
  let wSum := (samples.map (fun s => 1 / clampedDistSq p s)).sum
  let num := (samples.map (fun s => 1 / clampedDistSq p s * s.2.2)).sum
  if wSum = 0 then none else some (num / wSum)

/-- Embeds `HeatMapGenerator._create_simple_interpolation`: fill every lattice
cell with its IDW value (the two nested `for` loops). -/
def createSimpleInterpolation (samples : List Sample) (pts : List (ℚ × ℚ)) :
    List (Option ℚ) :=
  pts.map (idwCell samples)

/-- Embeds `np.isnan(grid_values).all()`: the grid is entirely NaN (vacuously
true on an empty grid, exactly as `ndarray.all`). -/
def allNaN (g : List (Option ℚ)) : Bool := g.all (fun c => c.isNone)

/-- The result of one external `scipy.interpolate.griddata` call:
`Except.error` when the call raises, otherwise the produced grid with
`none` for NaN cells.  The scipy library is outside the repository, so the
chain is verified for every possible oracle. -/
abbrev GridOracle := String → Except Unit (List (Option ℚ))

/-- The `for method in Config.INTERPOLATION_METHODS` loop of
`HeatMapGenerator._interpolate_with_fallback`
(`src/core/heatmap_generator.py:181-199`): skip cubic below 4 samples,
swallow exceptions, reject all-NaN grids, return the first good grid. -/
def tryMethods (attempt : GridOracle) (n : ℕ) : List String → Option (List (Option ℚ))
  | [] => none
  | m :: ms =>
    if n < 4 ∧ m = "cubic" then tryMethods attempt n ms
    else
      match attempt m with
      | Except.error _ => tryMethods attempt n ms
      | Except.ok g => if allNaN g then tryMethods attempt n ms else some g

/-- Embeds `HeatMapGenerator._interpolate_with_fallback`: the method loop, and on
total failure the IDW final fallback. -/
def interpolateWithFallback (attempt : GridOracle) (samples : List Sample)
    (pts : List (ℚ × ℚ)) : List (Option ℚ) :=
  match tryMethods attempt samples.length Config.INTERPOLATION_METHODS with
  | some g => g
  | none => createSimpleInterpolation samples pts

/-- Specification-side success predicate for one method, in the words of
the claim: the call completes without raising and its grid is not entirely
NaN. -/
def methodSucceeds (attempt : GridOracle) (m : String) : Bool :=
  match attempt m with
  | Except.error _ => false
  | Except.ok g => !allNaN g

/-- The grid an oracle produced for a method (junk `[]` when it raised;
only consulted where `methodSucceeds` holds). -/
def attemptGrid (attempt : GridOracle) (m : String) : List (Option ℚ) :=
  match attempt m with
  | Except.ok g => g
  | Except.error _ => []

/-- Tests whether `needle` is an initial segment of `hay` (character lists). -/
def listStarts : List Char → List Char → Bool
  | [], _ => true
  | _ :: _, [] => false
  | c :: cs, d :: ds => c = d && listStarts cs ds

/-- Tests whether `needle` occurs somewhere inside `hay` (character lists). -/
def listContainsSub : List Char → List Char → Bool
  | [], n => listStarts n []
  | c :: t, n => listStarts n (c :: t) || listContainsSub t n

/-- Python's `sub in s` substring test. -/
def strContains (s sub : String) : Bool := listContainsSub s.data sub.data

/-- Python's `s.lower()` (character-wise lowering; all strings involved
are ASCII). -/
def strLower (s : String) : String := String.mk (s.data.map Char.toLower)

/-- Python's `f-string` format `{v:.0f}`: round to the nearest integer,
ties to even, printed without decimal point. -/
def fmtFixed0 (q : ℚ) : String := toString (rndHalfEven q)

/-- Python's `f-string` format `{v:.1f}`: one digit after the decimal
point, rounding ties to even. -/
def fmtFixed1 (q : ℚ) : String :=
  let n := rndHalfEven (q * 10)
  let sgn := if n < 0 then "-" else ""
  sgn ++ toString (n.natAbs / 10) ++ "." ++ toString (n.natAbs % 10)

/-- The point-label format expression of `_plot_single_point` and
`_add_point_labels`: integer format when `"throughput" in label.lower()`,
one decimal place otherwise. -/
def formatValue (label : String) (v : ℚ) : String :=
  if strContains (strLower label) "throughput" then fmtFixed0 v else fmtFixed1 v

/-- What the engine asks the external drawing collaborator to render: the
empty scene of `generate_empty_heatmap` (no grid, no points), the
single-marker scene of `_plot_single_point` (one scatter marker plus its
annotation text), or the full heat-map scene of `generate_heatmap` (the
interpolated grid plus the deduplicated scatter points). -/
inductive Scene
  | emptyMap (title : String)
  | singlePoint (x y : ℚ) (labelText : String)
  | heat (grid : List (Option ℚ)) (points : List Sample) (label : String)
  deriving DecidableEq

/-- The scatter-marker coordinates a scene contains. -/
def sceneMarkers : Scene → List (ℚ × ℚ)
  | Scene.emptyMap _ => []
  | Scene.singlePoint x y _ => [(x, y)]
  | Scene.heat _ points _ => points.map (fun s => (s.1, s.2.1))

/-- Embeds `HeatMapGenerator.generate_heatmap`
(`src/core/heatmap_generator.py:19-101`): with one value, delegate to
`_plot_single_point` and return; otherwise deduplicate, compute bounds,
build the lattice, interpolate with fallback, and compose the heat scene. -/
def generateHeatmap (attempt : GridOracle) (xs ys vs : List ℚ)
    (label : String) : Scene :=
  if vs.length = 1 then
    Scene.singlePoint (xs.headD 0) (ys.headD 0) (formatValue label (vs.headD 0))
  else
    let fil := removeDuplicates xs ys vs
    let b := calculateBounds fil.1 fil.2.1
    let pts := latticePoints b.1 b.2.1 b.2.2.1 b.2.2.2 Config.INTERPOLATION_GRID_SIZE
    let samples := zip3 fil.1 fil.2.1 fil.2.2
    Scene.heat (interpolateWithFallback attempt samples pts) samples label

/-- Embeds `Config.HEATMAP_TYPES.get(heatmap_type, "rssi")` as in
`DataProcessor.get_heatmap_data`; `HeatMapHero.generate_heatmap` indexes
the same table with a key the combobox guarantees to be present. -/
def heatmapTypeKey (selected : String) : String :=
  (Config.HEATMAP_TYPES.lookup selected).getD "rssi"

/-- The metric display label of `DataProcessor.get_heatmap_data`. -/
def metricLabel (key : String) : String :=
  if key = "rssi" then "RSSI (dBm)"
  else if key = "latency" then "Average Latency (ms)"
  else if key = "tcp_throughput" then "TCP Throughput (Mbps)"
  else if key = "udp_throughput" then "UDP Throughput (Mbps)"
  else if key = "packet_loss" then "Packet Loss (%)"
  else if key = "jitter" then "Jitter (ms)"
  else "RSSI (dBm)"

/-- The throughput zero-filter `valid_indices = values > 0` of
`HeatMapHero.generate_heatmap` (`src/gui/main_window.py:285`), applied to
the zipped samples: keep exactly the samples with value strictly
positive. -/
def throughputFilter (samples : List Sample) : List Sample :=
  samples.filter (fun s => 0 < s.2.2)

/-- Embeds `HeatMapHero.generate_heatmap` (`src/gui/main_window.py:263-310`), the
GUI driver: empty scene when no data is loaded; for throughput-class
metrics drop zero/negative values first and take the empty-scene path when
nothing survives; otherwise hand the samples to the generator.  `samples`
is the per-metric `(x, y, value)` extraction of
`DataProcessor.get_coordinates_and_values`. -/
def guiGenerate (attempt : GridOracle) (selected : String)
    (samples : List Sample) : Scene :=
  if samples.isEmpty then Scene.emptyMap selected
  else
    let label := metricLabel (heatmapTypeKey selected)
    if strContains (strLower (heatmapTypeKey selected)) "throughput" then
      let valid := throughputFilter samples
      if valid.isEmpty then Scene.emptyMap selected
      else
        generateHeatmap attempt (valid.map (fun s => s.1))
          (valid.map (fun s => s.2.1)) (valid.map (fun s => s.2.2)) label
    else
      generateHeatmap attempt (samples.map (fun s => s.1))
        (samples.map (fun s => s.2.1)) (samples.map (fun s => s.2.2)) label

/-- A concrete oracle on which every `griddata` call raises. -/
def oracleNone : GridOracle := fun _ => Except.error ()

/-- A concrete oracle on which only the cubic call returns a grid. -/
def oracleCubicOnly : GridOracle :=
  fun m => if m = "cubic" then Except.ok [some 2] else Except.error ()

/-- A concrete oracle on which only the linear call returns a grid. -/
def oracleLinearOnly : GridOracle :=
  fun m => if m = "linear" then Except.ok [some 1] else Except.error ()

/-- Four concrete samples (enough for the cubic gate). -/
def sampleQuad : List Sample := [(0, 0, 1), (1, 0, 2), (0, 1, 3), (1, 1, 4)]

/-! ## Helper lemmas -/

lemma epsSq_pos : (0 : ℚ) < (1 / 10 ^ 10) ^ 2 := by positivity

lemma clampedDistSq_pos (p : ℚ × ℚ) (s : Sample) : 0 < clampedDistSq p s :=
  lt_of_lt_of_le epsSq_pos (le_max_right _ _)

lemma weight_pos (p : ℚ × ℚ) (s : Sample) : 0 < 1 / clampedDistSq p s :=
  one_div_pos.mpr (clampedDistSq_pos p s)

lemma wSum_pos (samples : List Sample) (p : ℚ × ℚ) (hne : samples ≠ []) :
    0 < (samples.map (fun s => 1 / clampedDistSq p s)).sum := by
  refine List.sum_pos _ ?_ ?_
  · intro x hx
    obtain ⟨s, _, rfl⟩ := List.mem_map.mp hx
    exact weight_pos p s
  · simpa using hne

lemma idwCell_isSome (samples : List Sample) (p : ℚ × ℚ) (hne : samples ≠ []) :
    (idwCell samples p).isSome := by
  unfold idwCell
  rw [if_neg (ne_of_gt (wSum_pos samples p hne))]
  rfl

lemma foldl_min_le (t : List ℚ) (a : ℚ) :
    t.foldl min a ≤ a ∧ ∀ v ∈ t, t.foldl min a ≤ v := by
  induction t generalizing a with
  | nil => simp
  | cons b t ih =>
    obtain ⟨h1, h2⟩ := ih (min a b)
    refine ⟨le_trans h1 (min_le_left a b), ?_⟩
    intro v hv
    rcases List.mem_cons.mp hv with rfl | hv
    · exact le_trans h1 (min_le_right a v)
    · exact h2 v hv

lemma le_foldl_max (t : List ℚ) (a : ℚ) :
    a ≤ t.foldl max a ∧ ∀ v ∈ t, v ≤ t.foldl max a := by
  induction t generalizing a with
  | nil => simp
  | cons b t ih =>
    obtain ⟨h1, h2⟩ := ih (max a b)
    refine ⟨le_trans (le_max_left a b) h1, ?_⟩
    intro v hv
    rcases List.mem_cons.mp hv with rfl | hv
    · exact le_trans (le_max_right a v) h1
    · exact h2 v hv

lemma listMin_le (l : List ℚ) (v : ℚ) (hv : v ∈ l) : listMin l ≤ v := by
  cases l with
  | nil => cases hv
  | cons h t =>
    rcases List.mem_cons.mp hv with rfl | hv
    · exact (foldl_min_le t v).1
    · exact (foldl_min_le t h).2 v hv

lemma le_listMax (l : List ℚ) (v : ℚ) (hv : v ∈ l) : v ≤ listMax l := by
  cases l with
  | nil => cases hv
  | cons h t =>
    rcases List.mem_cons.mp hv with rfl | hv
    · exact (le_foldl_max t v).1
    · exact (le_foldl_max t h).2 v hv

lemma idwCell_between (samples : List Sample) (p : ℚ × ℚ) (q lo hi : ℚ)
    (h : idwCell samples p = some q)
    (hbound : ∀ s ∈ samples, lo ≤ s.2.2 ∧ s.2.2 ≤ hi) : lo ≤ q ∧ q ≤ hi := by
  cases samples with
  | nil => simp [idwCell] at h
  | cons s0 rest =>
    have hne : s0 :: rest ≠ [] := List.cons_ne_nil s0 rest
    have hw := wSum_pos (s0 :: rest) p hne
    unfold idwCell at h
    rw [if_neg (ne_of_gt hw)] at h
    have hq : q = ((s0 :: rest).map (fun s => 1 / clampedDistSq p s * s.2.2)).sum /
        ((s0 :: rest).map (fun s => 1 / clampedDistSq p s)).sum := (Option.some.inj h).symm
    constructor
    · rw [hq, le_div_iff₀ hw]
      calc lo * ((s0 :: rest).map (fun s => 1 / clampedDistSq p s)).sum
          = ((s0 :: rest).map (fun s => lo * (1 / clampedDistSq p s))).sum := by
            rw [← List.sum_map_mul_left]
        _ ≤ ((s0 :: rest).map (fun s => 1 / clampedDistSq p s * s.2.2)).sum := by
            refine List.sum_le_sum ?_
            intro s hs
            rw [mul_comm]
            exact mul_le_mul_of_nonneg_left (hbound s hs).1 (le_of_lt (weight_pos p s))
    · rw [hq, div_le_iff₀ hw]
      calc ((s0 :: rest).map (fun s => 1 / clampedDistSq p s * s.2.2)).sum
          ≤ ((s0 :: rest).map (fun s => 1 / clampedDistSq p s * hi)).sum := by
            refine List.sum_le_sum ?_
            intro s hs
            exact mul_le_mul_of_nonneg_left (hbound s hs).2 (le_of_lt (weight_pos p s))
        _ = hi * ((s0 :: rest).map (fun s => 1 / clampedDistSq p s)).sum := by
            rw [List.sum_map_mul_right, mul_comm]

lemma rndHalfEven_intCast (n : ℤ) : rndHalfEven (n : ℚ) = n := by
  unfold rndHalfEven
  simp

lemma sampleKey_upd (t : Sample) (w : ℚ) : sampleKey (t.1, t.2.1, w) = sampleKey t := rfl

lemma map_ite_of_not_mem (f : Sample → Sample) (k : ℚ × ℚ) (acc : List Sample)
    (hk : k ∉ acc.map sampleKey) :
    acc.map (fun t => if sampleKey t = k then f t else t) = acc := by
  induction acc with
  | nil => rfl
  | cons a l ih =>
    simp only [List.map_cons, List.mem_cons, not_or] at hk
    simp only [List.map_cons]
    rw [if_neg (fun h => hk.1 h.symm), ih hk.2]

lemma keys_map_ite (k : ℚ × ℚ) (w : ℚ) (acc : List Sample) :
    (acc.map (fun t =>
        if sampleKey t = k then (t.1, t.2.1, (t.2.2 + w) / 2) else t)).map sampleKey =
      acc.map sampleKey := by
  rw [List.map_map]
  refine List.map_congr_left ?_
  intro t _
  by_cases h : sampleKey t = k
  · simp only [Function.comp, h, if_pos, ite_true]
    exact (sampleKey_upd t _).trans h
  · simp only [Function.comp, h, if_neg, ite_false]

lemma listModify_idxOf (f : Sample → Sample) (k : ℚ × ℚ) (acc : List Sample)
    (hnd : (acc.map sampleKey).Nodup) :
    listModify f (idxOf k (acc.map sampleKey)) acc =
      acc.map (fun t => if sampleKey t = k then f t else t) := by
  induction acc with
  | nil => rfl
  | cons a l ih =>
    simp only [List.map_cons, List.nodup_cons] at hnd
    by_cases ha : sampleKey a = k
    · simp only [List.map_cons, idxOf, if_pos ha, listModify, if_pos ha]
      rw [map_ite_of_not_mem f k l (ha ▸ hnd.1)]
    · simp only [List.map_cons, idxOf, if_neg ha, listModify, if_neg ha]
      rw [ih hnd.2]

/-- The imperative loop of `_remove_duplicates` computes the fold of the
specification-side `dedupStep`. -/
lemma dedupLoop_eq_foldl (rest : List Sample) (acc : List Sample)
    (hnd : (acc.map sampleKey).Nodup) :
    dedupLoop (acc.map sampleKey) acc rest = rest.foldl dedupStep acc := by
  induction rest generalizing acc with
  | nil => simp [dedupLoop]
  | cons s rest ih =>
    simp only [dedupLoop, List.foldl_cons]
    by_cases hm : sampleKey s ∈ acc.map sampleKey
    · rw [if_pos hm,
        listModify_idxOf (fun t => (t.1, t.2.1, (t.2.2 + s.2.2) / 2)) (sampleKey s) acc hnd]
      have hkeys := keys_map_ite (sampleKey s) s.2.2 acc
      have hstep : dedupStep acc s =
          acc.map (fun t =>
            if sampleKey t = sampleKey s then (t.1, t.2.1, (t.2.2 + s.2.2) / 2) else t) := by
        rw [dedupStep, if_pos hm]
      rw [hstep.symm] at hkeys ⊢
      rw [show acc.map sampleKey = (dedupStep acc s).map sampleKey from hkeys.symm]
      exact ih (dedupStep acc s) (hkeys ▸ hnd)
    · rw [if_neg hm]
      have hstep : dedupStep acc s = acc ++ [s] := by rw [dedupStep, if_neg hm]
      have hkeys : (acc ++ [s]).map sampleKey = acc.map sampleKey ++ [sampleKey s] := by
        simp
      have hnd' : ((acc ++ [s]).map sampleKey).Nodup := by
        rw [hkeys]
        simp only [List.nodup_append, List.nodup_cons, List.not_mem_nil, not_false_iff,
          List.nodup_nil, and_true, true_and]
        simp [List.disjoint_singleton, hm, hnd]
      rw [hstep, ← hkeys]
      exact ih (acc ++ [s]) hnd'

/-- Shows `_remove_duplicates` agrees with the specification-side key-to-entry
mapping fold. -/
lemma removeDuplicates_eq_spec (xs ys vs : List ℚ) :
    removeDuplicates xs ys vs = dedupTriple (zip3 xs ys vs) := by
  have h := dedupLoop_eq_foldl (zip3 xs ys vs) [] (by simp)
  simp only [List.map_nil] at h
  rw [removeDuplicates, dedupTriple, dedupSpec, h]

lemma foldl_dedupStep_nodup (samples : List Sample) (acc : List Sample)
    (hnd : (acc.map sampleKey).Nodup) :
    ((samples.foldl dedupStep acc).map sampleKey).Nodup := by
  induction samples generalizing acc with
  | nil => exact hnd
  | cons s rest ih =>
    simp only [List.foldl_cons]
    refine ih (dedupStep acc s) ?_
    by_cases hm : sampleKey s ∈ acc.map sampleKey
    · rw [show dedupStep acc s =
          acc.map (fun t =>
            if sampleKey t = sampleKey s then (t.1, t.2.1, (t.2.2 + s.2.2) / 2) else t) from
          by rw [dedupStep, if_pos hm]]
      rw [keys_map_ite]
      exact hnd
    · rw [show dedupStep acc s = acc ++ [s] from by rw [dedupStep, if_neg hm]]
      simp only [List.map_append, List.map_cons, List.map_nil, List.nodup_append,
        List.nodup_cons, List.not_mem_nil, not_false_iff, List.nodup_nil, and_true, true_and]
      simp [List.disjoint_singleton, hm, hnd]

/-- On input whose rounded keys are already pairwise distinct, the dedup
fold inserts every sample unchanged. -/
lemma foldl_dedupStep_of_nodup (samples : List Sample) (acc : List Sample)
    (hnd : ((acc ++ samples).map sampleKey).Nodup) :
    samples.foldl dedupStep acc = acc ++ samples := by
  induction samples generalizing acc with
  | nil => simp
  | cons s rest ih =>
    have hm : sampleKey s ∉ acc.map sampleKey := by
      simp only [List.map_append, List.nodup_append, List.map_cons] at hnd
      intro hmem
      exact (hnd.2.2 hmem) (List.mem_cons_self _ _)
    simp only [List.foldl_cons]
    rw [show dedupStep acc s = acc ++ [s] from by rw [dedupStep, if_neg hm]]
    have hnd' : (((acc ++ [s]) ++ rest).map sampleKey).Nodup := by
      rw [List.append_assoc]
      exact hnd
    rw [ih (acc ++ [s]) hnd', List.append_assoc]
    rfl

lemma zip3_proj (l : List Sample) :
    zip3 (l.map (fun s => s.1)) (l.map (fun s => s.2.1)) (l.map (fun s => s.2.2)) = l := by
  induction l with
  | nil => rfl
  | cons s rest ih => simp [zip3, ih]

/-- When the cubic gate is inactive, the method loop returns the grid of
the first succeeding method, if any. -/
lemma tryMethods_eq_find (attempt : GridOracle) (n : ℕ) (ms : List String)
    (hn : ¬ n < 4) :
    tryMethods attempt n ms = (ms.find? (methodSucceeds attempt)).map (attemptGrid attempt) := by
  induction ms with
  | nil => rfl
  | cons m ms ih =>
    rw [tryMethods, if_neg (fun hc => hn hc.1), List.find?]
    cases hc : attempt m with
    | error e => simp [methodSucceeds, hc, ih]
    | ok g =>
      cases hall : allNaN g with
      | true => simp [methodSucceeds, hc, hall, ih]
      | false => simp [methodSucceeds, attemptGrid, hc, hall]

/-- Below four samples the cubic method is skipped before the oracle is
consulted, so the loop's result only depends on the oracle's behaviour at
the remaining methods. -/
lemma tryMethods_gate (a₁ a₂ : GridOracle) (n : ℕ) (ms : List String) (h : n < 4)
    (hagree : ∀ m, m ≠ "cubic" → a₁ m = a₂ m) :
    tryMethods a₁ n ms = tryMethods a₂ n ms := by
  induction ms with
  | nil => rfl
  | cons m ms ih =>
    by_cases hm : m = "cubic"
    · rw [tryMethods, tryMethods, if_pos ⟨h, hm⟩, if_pos ⟨h, hm⟩, ih]
    · rw [tryMethods, tryMethods, if_neg (fun hc => hm hc.2), if_neg (fun hc => hm hc.2),
        hagree m hm]
      cases a₂ m with
      | error e => simpa using ih
      | ok g =>
        cases hall : allNaN g with
        | true => simpa [hall] using ih
        | false => simp [hall]

/-! ## Claims -/

/-- C1.  In data-extent mode the computed bounds are the sample extent
expanded by the padding fraction 0.2 with a range floor of 1: for samples
spanning `x` in `[0, 10]` and `y` in `[0, 5]` the bounds are
`x` in `[-2, 12]`, `y` in `[-1, 6]` (bounds computation of
`src/hmh.py:369-380`). -/
theorem claim_C1 : dataExtentBounds [0, 4, 10] [5, 0, 2] = (-2, 12, -1, 6) := by
  norm_num [dataExtentBounds, listMin, listMax]

/-- C2.  For every non-empty sample set and every grid resolution at least
1, the IDW fallback fills every lattice cell with a defined (non-NaN)
value: the clamped distances keep every weight positive, so the weight sum
never vanishes and no `0/0` can occur (the Lean embedding is a total
function, so termination is structural). -/
theorem claim_C2 (samples : List Sample) (xMin xMax yMin yMax : ℚ) (n : ℕ)
    (hne : samples ≠ []) (_hn : 1 ≤ n) :
    (createSimpleInterpolation samples (latticePoints xMin xMax yMin yMax n)).all
      (fun c => c.isSome) = true := by
  rw [createSimpleInterpolation, List.all_eq_true]
  intro c hc
  obtain ⟨p, _, rfl⟩ := List.mem_map.mp hc
  exact idwCell_isSome samples p hne

/-- Witness for C2: one sample, resolution 1. -/
theorem claim_C2_witness :
    (createSimpleInterpolation [((0 : ℚ), (0 : ℚ), (5 : ℚ))]
      (latticePoints 0 200 0 100 1)).all (fun c => c.isSome) = true :=
  claim_C2 [((0 : ℚ), (0 : ℚ), (5 : ℚ))] 0 200 0 100 1
    (List.cons_ne_nil _ _) (by decide)

/-- C9.  Every cell the IDW fallback produces is a convex combination of
the sample values: it lies between the minimum and the maximum of the
input sample values, inclusive. -/
theorem claim_C9 (samples : List Sample) (p : ℚ × ℚ) (q : ℚ)
    (h : idwCell samples p = some q) :
    listMin (samples.map (fun s => s.2.2)) ≤ q ∧
      q ≤ listMax (samples.map (fun s => s.2.2)) := by
  cases samples with
  | nil => simp [idwCell] at h
  | cons s0 rest =>
    refine idwCell_between (s0 :: rest) p q _ _ h ?_
    intro s hs
    constructor
    · exact listMin_le _ _ (List.mem_map.mpr ⟨s, hs, rfl⟩)
    · exact le_listMax _ _ (List.mem_map.mpr ⟨s, hs, rfl⟩)

/-- Witness for C9: a single sample of value 7 at the origin, queried at
`(5, 0)`, yields exactly 7, which lies between the minimum and maximum. -/
theorem claim_C9_witness :
    listMin ([((0 : ℚ), (0 : ℚ), (7 : ℚ))].map (fun s => s.2.2)) ≤ 7 ∧
      (7 : ℚ) ≤ listMax ([((0 : ℚ), (0 : ℚ), (7 : ℚ))].map (fun s => s.2.2)) :=
  claim_C9 [((0 : ℚ), (0 : ℚ), (7 : ℚ))] (5, 0) 7 (by
    norm_num [idwCell, clampedDistSq])

/-- C5.  Deduplication maps each rounded-to-6-decimals `(x, y)` key to one
entry in first-seen order — inserting on the first occurrence and
replacing the stored value by `(stored + new) / 2` on every repeat — so
that three duplicates of one key yield the running pairwise mean `3/2`
rather than the true arithmetic mean `1` of the values `0, 0, 3`. -/
theorem claim_C5 :
    (∀ xs ys vs, removeDuplicates xs ys vs = dedupTriple (zip3 xs ys vs)) ∧
      removeDuplicates [1, 1, 1] [2, 2, 2] [0, 0, 3] = ([1], [2], [3 / 2]) ∧
      (3 : ℚ) / 2 ≠ (0 + 0 + 3) / 3 := by
  refine ⟨removeDuplicates_eq_spec, ?_, by norm_num⟩
  norm_num [removeDuplicates, dedupLoop, zip3, sampleKey, round6, rndHalfEven,
    idxOf, listModify]

/-- C6.  Deduplication is idempotent: applying it to its own output
returns the three parallel sequences unchanged, because the output's
rounded keys are pairwise distinct. -/
theorem claim_C6 (xs ys vs : List ℚ) :
    removeDuplicates (removeDuplicates xs ys vs).1 (removeDuplicates xs ys vs).2.1
      (removeDuplicates xs ys vs).2.2 = removeDuplicates xs ys vs := by
  have hspec := removeDuplicates_eq_spec xs ys vs
  set out := dedupSpec (zip3 xs ys vs) with hout
  have htriple : removeDuplicates xs ys vs =
      (out.map (fun s => s.1), out.map (fun s => s.2.1), out.map (fun s => s.2.2)) := by
    rw [hspec]; rfl
  have hnd : (out.map sampleKey).Nodup := by
    rw [hout, dedupSpec]
    exact foldl_dedupStep_nodup (zip3 xs ys vs) [] (by simp)
  rw [htriple]
  have hz := zip3_proj out
  have hloop := dedupLoop_eq_foldl out ([] : List Sample) (by simp)
  simp only [List.map_nil] at hloop
  have hid : out.foldl dedupStep [] = out := by
    have := foldl_dedupStep_of_nodup out [] (by simpa using hnd)
    simpa using this
  show removeDuplicates (out.map (fun s => s.1)) (out.map (fun s => s.2.1))
      (out.map (fun s => s.2.2)) = _
  rw [removeDuplicates, hz, hloop, hid]

/-- C3.  With the cubic gate inactive (at least 4 samples), the
interpolation routine tries cubic, then linear, then nearest; a method
succeeds exactly when its call completes without raising and its grid is
not entirely NaN; the first succeeding method's grid is returned, and only
when all three fail does the routine fall through to the IDW fallback. -/
theorem claim_C3 (attempt : GridOracle) (samples : List Sample) (pts : List (ℚ × ℚ))
    (h4 : 4 ≤ samples.length) :
    interpolateWithFallback attempt samples pts =
      match Config.INTERPOLATION_METHODS.find? (methodSucceeds attempt) with
      | some m => attemptGrid attempt m
      | none => createSimpleInterpolation samples pts := by
  rw [interpolateWithFallback,
    tryMethods_eq_find attempt samples.length _ (not_lt.mpr h4)]
  cases Config.INTERPOLATION_METHODS.find? (methodSucceeds attempt) with
  | none => rfl
  | some m => rfl

/-- Witness for C3: four samples, an oracle on which only linear works. -/
theorem claim_C3_witness :
    interpolateWithFallback oracleLinearOnly sampleQuad [] =
      match Config.INTERPOLATION_METHODS.find? (methodSucceeds oracleLinearOnly) with
      | some m => attemptGrid oracleLinearOnly m
      | none => createSimpleInterpolation sampleQuad [] :=
  claim_C3 oracleLinearOnly sampleQuad [] (by decide)

/-- C4.  With fewer than 4 samples the cubic method is never attempted:
the chain's result is unchanged under any modification of the oracle's
behaviour at "cubic". -/
theorem claim_C4 (a₁ a₂ : GridOracle) (samples : List Sample) (pts : List (ℚ × ℚ))
    (h : samples.length < 4) (hagree : ∀ m, m ≠ "cubic" → a₁ m = a₂ m) :
    interpolateWithFallback a₁ samples pts = interpolateWithFallback a₂ samples pts := by
  rw [interpolateWithFallback, interpolateWithFallback,
    tryMethods_gate a₁ a₂ samples.length Config.INTERPOLATION_METHODS h hagree]

/-- Witness for C4: one sample; an all-raising oracle versus one whose
cubic call would return a perfectly good grid. -/
theorem claim_C4_witness :
    interpolateWithFallback oracleNone [((0 : ℚ), (0 : ℚ), (1 : ℚ))] [] =
      interpolateWithFallback oracleCubicOnly [((0 : ℚ), (0 : ℚ), (1 : ℚ))] [] :=
  claim_C4 oracleNone oracleCubicOnly [((0 : ℚ), (0 : ℚ), (1 : ℚ))] [] (by decide)
    (fun m hm => by simp [oracleNone, oracleCubicOnly, hm])

/-- C7.  A one-sample set `(x = 50, y = 25, value = -45)` with a
non-throughput metric takes the single-point path for every possible
interpolation oracle — the chain and deduplication are never consulted —
and the scene holds exactly one marker at `(50, 25)` labelled `"-45.0"`. -/
theorem claim_C7 (attempt : GridOracle) :
    generateHeatmap attempt [50] [25] [-45] "RSSI (dBm)" =
        Scene.singlePoint 50 25 "-45.0" ∧
      sceneMarkers (generateHeatmap attempt [50] [25] [-45] "RSSI (dBm)") = [(50, 25)] := by
  have hfmt : formatValue "RSSI (dBm)" (-45) = "-45.0" := by
    rw [formatValue, if_neg (by decide)]
    simp only [fmtFixed1]
    rw [show ((-45 : ℚ) * 10) = ((-450 : ℤ) : ℚ) by norm_num, rndHalfEven_intCast]
    decide
  have h : generateHeatmap attempt [50] [25] [-45] "RSSI (dBm)" =
      Scene.singlePoint 50 25 "-45.0" := by
    rw [generateHeatmap, if_pos (show ([-45] : List ℚ).length = 1 from rfl)]
    simp only [List.headD]
    rw [hfmt]
  exact ⟨h, by rw [h]; rfl⟩

/-- C8.  For a throughput-class metric, zero-valued samples are removed
before dedup/interpolation; a set whose values are all zero is emptied by
the filter and the engine takes the empty-scene path. -/
theorem claim_C8 (attempt : GridOracle) (selected : String) (samples : List Sample)
    (hT : strContains (strLower (heatmapTypeKey selected)) "throughput" = true)
    (h0 : ∀ s ∈ samples, s.2.2 = 0) :
    guiGenerate attempt selected samples = Scene.emptyMap selected := by
  rw [guiGenerate]
  by_cases hemp : samples.isEmpty
  · rw [if_pos hemp]
  · rw [if_neg hemp]
    have hfil : throughputFilter samples = [] := by
      rw [throughputFilter, List.filter_eq_nil_iff]
      intro s hs
      rw [h0 s hs]
      simp
    simp only [hT, if_true, hfil, List.isEmpty_nil, ite_true]

/-- Witness for C8: one all-zero TCP-throughput sample. -/
theorem claim_C8_witness :
    guiGenerate oracleNone "TCP Throughput" [((1 : ℚ), (2 : ℚ), (0 : ℚ))] =
      Scene.emptyMap "TCP Throughput" :=
  claim_C8 oracleNone "TCP Throughput" [((1 : ℚ), (2 : ℚ), (0 : ℚ))] (by decide)
    (by
      intro s hs
      rw [List.mem_singleton] at hs
      subst hs
      rfl)

/-- C10.  The throughput filter keeps exactly the samples with value
strictly greater than 0 — negative values are dropped together with the
zeros — and a set whose values are all at most 0 also takes the
empty-scene path. -/
theorem claim_C10 (attempt : GridOracle) (selected : String) (samples : List Sample)
    (hT : strContains (strLower (heatmapTypeKey selected)) "throughput" = true) :
    (∀ s ∈ throughputFilter samples, 0 < s.2.2) ∧
      ((∀ s ∈ samples, s.2.2 ≤ 0) →
        guiGenerate attempt selected samples = Scene.emptyMap selected) := by
  constructor
  · intro s hs
    have hmem := List.of_mem_filter hs
    simpa using hmem
  · intro hle
    rw [guiGenerate]
    by_cases hemp : samples.isEmpty
    · rw [if_pos hemp]
    · rw [if_neg hemp]
      have hfil : throughputFilter samples = [] := by
        rw [throughputFilter, List.filter_eq_nil_iff]
        intro s hs
        simpa using not_lt.mpr (hle s hs)
      simp only [hT, if_true, hfil, List.isEmpty_nil, ite_true]

/-- Witness for C10: one negative-valued UDP-throughput sample. -/
theorem claim_C10_witness :
    guiGenerate oracleNone "UDP Throughput" [((1 : ℚ), (1 : ℚ), (-3 : ℚ))] =
      Scene.emptyMap "UDP Throughput" :=
  (claim_C10 oracleNone "UDP Throughput" [((1 : ℚ), (1 : ℚ), (-3 : ℚ))]
    (by decide)).2
    (by
      intro s hs
      rw [List.mem_singleton] at hs
      subst hs
      norm_num)

end HeatMapHero
